import Mathlib

/-!
Verification of the morphik-core multi-vector scoring subsystem and the
chat-session hooks, as shallowly embedded Lean definitions.

The scoring part embeds the SQL function `max_sim(document bit[], query bit[])`
from the storage schema.  PostgreSQL bit strings are modelled as `List Bool`,
SQL `double precision` is modelled exactly as `ℚ` (every value the function
produces is a small exact rational), SQL NULL as `Option`, and a raised SQL
error (`#` on bit strings of different sizes) as `Except.error`.

The chat hooks (`useMorphikChat.append`, `useChatSessions.deleteChat`) are
stateful React code; they are embedded as pure state-transition functions over
the messages/sessions lists, with the HTTP outcome passed in explicitly.
-/

/-- A PostgreSQL bit string, most significant bit first. -/
abbrev BitStr := List Bool

/-- SQL `bit_length`: the number of bits in a bit string. -/
def bit_length (v : BitStr) : Nat := v.length

/-- SQL `bit_count`: the number of set bits. -/
def bit_count (v : BitStr) : Nat := v.count true

/-- SQL `#` on bit strings: bitwise XOR.  PostgreSQL raises an error when the
lengths differ; `max_sim` below only applies this after checking lengths, so
here the total `zipWith` is used and the length check is made explicit in
`widthsCompatible`. -/
def bitxor (a b : BitStr) : BitStr := List.zipWith xor a b

/-- SQL `greatest` on two integers. -/
def greatest (a b : Nat) : Nat := max a b

/-- One row of the `similarities` CTE of `max_sim`:
`1.0 - (bit_count(document # query)::float / greatest(bit_length(query), 1)::float)`. -/
def similarity (document query : BitStr) : ℚ :=
  1 - (bit_count (bitxor document query) : ℚ) / (greatest (bit_length query) 1 : ℚ)

/-- SQL `MAX` aggregate over the rows of one group: NULL over no rows. -/
def sqlMax : List ℚ → Option ℚ
  | [] => none
  | x :: xs => some (xs.foldl max x)

/-- SQL `SUM` aggregate: NULL over no rows, the sum otherwise. -/
def sqlSum (l : List ℚ) : Option ℚ :=
  if l = [] then none else some l.sum

/-- Whether every (document element, query element) pair that the CROSS JOIN
of `max_sim` produces has matching bit lengths.  When some pair does not,
PostgreSQL raises `cannot XOR bit strings of different sizes` while computing
the `similarities` CTE; when a side is empty the join is empty and nothing is
evaluated. -/
def widthsCompatible (document query : List BitStr) : Bool :=
  query.all fun q => document.all fun d => bit_length d == bit_length q

/-- The stored SQL function
`max_sim(document bit[], query bit[]) RETURNS double precision`:
number the query vectors, cross join with the document vectors, take the
per-query-number MAX of the similarities, and SUM those maxima.
`Except.error` models the raised SQL error, `Option` the NULL result. -/
def max_sim (document query : List BitStr) : Except String (Option ℚ) :=
  if widthsCompatible document query then
    Except.ok (sqlSum
      ((query.map fun q => sqlMax (document.map fun d => similarity d q)).filterMap id))
  else
    Except.error "cannot XOR bit strings of different sizes"

/-- The reference per-pair similarity of the spec:
`1 − popcount(d_j XOR q_i) / W`. -/
def refSimilarity (q d : BitStr) (W : Nat) : ℚ :=
  1 - (bit_count (bitxor d q) : ℚ) / (W : ℚ)

/-- The reference max-sim scoring function, written from the words of the
spec: for every query vector take the maximum similarity over all candidate
vectors, then sum the per-query maxima.  The `[]` branch of the inner match
is unreachable for a non-empty candidate. -/
def refScore (query candidate : List BitStr) (W : Nat) : ℚ :=
  (query.map fun q =>
    match candidate.map (fun d => refSimilarity q d W) with
    | [] => 0
    | x :: xs => xs.foldl max x).sum

/-- Modelled from the spec: the Quantizer is absent from the source tree (only
its plan document is present), so this follows §4.3 of the spec literally:
per-dimension sign thresholding (value > 0 gives bit 1, else bit 0, zero
mapping to 0) applied independently to each dimension of each vector, padded
up to the configured boundary W with zero bits; sequence length preserved. -/
def quantize (v : List (List ℚ)) (W : Nat) : List BitStr :=
  v.map fun x => (x.map fun a => decide (0 < a)) ++ List.replicate (W - x.length) false

/-! ## The chat hooks -/

/-- A chat message as held in the `messages` state of `useMorphikChat`. -/
structure UIMessage where
  id : Nat
  role : String
  content : String
  sources : List String
deriving DecidableEq

/-- The outcome of one `fetch`: an ok response with a parsed body, a non-ok
HTTP response with its error detail, or a thrown network error. -/
inductive HttpOutcome (α : Type) where
  | ok (body : α)
  | notOk (detail : String)
  | netErr (msg : String)

/-- The parsed body of an ok `/query` response. -/
structure QueryOk where
  completion : String
  sources : List String

/-- What one run of `useMorphikChat.append` leaves behind: the final
`messages` state, whether `showAlert` was called, whether an error propagated
to the caller of `append` (the returned promise rejected), and the final
`isLoading` flag. -/
structure AppendResult where
  messages : List UIMessage
  alerted : Bool
  raisedToCaller : Bool
  isLoading : Bool
deriving DecidableEq

/-- The state transition of `useMorphikChat.append`: `prev` is the messages
state before the call, `fresh1`/`fresh2` the generated ids, `content` the user
input, `queryResp` the outcome of the POST to `/query` and `sourcesResp` the
outcome of the follow-up POST to `/batch/chunks`.  Mirrors the source: the
user message is appended and `messagesBeforeUpdate` captured; a non-ok
response restores `messagesBeforeUpdate` and throws, and that throw is caught
by the catch block of `append` itself, which calls `showAlert`; a thrown fetch
lands in the same catch with no restore; on success the assistant message is
appended and, when sources are present and the chunks fetch succeeds, the last
(assistant) message has its sources replaced. -/
def appendFlow (prev : List UIMessage) (fresh1 fresh2 : Nat) (content : String)
    (queryResp : HttpOutcome QueryOk) (sourcesResp : HttpOutcome (List String)) :
    AppendResult :=
  let newUserMessage : UIMessage := ⟨fresh1, "user", content, []⟩
  let messagesBeforeUpdate := prev
  let afterUser := prev ++ [newUserMessage]
  match queryResp with
  | .netErr _ =>
      { messages := afterUser, alerted := true, raisedToCaller := false, isLoading := false }
  | .notOk _ =>
      { messages := messagesBeforeUpdate, alerted := true, raisedToCaller := false,
        isLoading := false }
  | .ok body =>
      let assistantMessage : UIMessage := ⟨fresh2, "assistant", body.completion, body.sources⟩
      if body.sources ≠ [] then
        match sourcesResp with
        | .ok sourcesData =>
            { messages := afterUser ++ [{ assistantMessage with sources := sourcesData }],
              alerted := false, raisedToCaller := false, isLoading := false }
        | _ =>
            { messages := afterUser ++ [assistantMessage], alerted := false,
              raisedToCaller := false, isLoading := false }
      else
        { messages := afterUser ++ [assistantMessage], alerted := false,
          raisedToCaller := false, isLoading := false }

/-- One entry of the `sessions` state of `useChatSessions`. -/
structure ChatSessionMeta where
  chatId : String
  createdAt : Option String
  updatedAt : Option String
  name : Option String
  lastMessage : Option String
deriving DecidableEq

/-- The state transition of `useChatSessions.deleteChat`: on an ok response it
filters the session out of the local state and returns true; on a non-ok
response or a thrown fetch it leaves the state alone and returns false. -/
def deleteChat (sessions : List ChatSessionMeta) (chatId : String)
    (resp : HttpOutcome Unit) : Bool × List ChatSessionMeta :=
  match resp with
  | .ok _ => (true, sessions.filter fun session => session.chatId != chatId)
  | .notOk _ => (false, sessions)
  | .netErr _ => (false, sessions)

/-! ## Helper lemmas -/

lemma le_foldl_max (x : ℚ) (xs : List ℚ) : x ≤ xs.foldl max x := by
  induction xs generalizing x with
  | nil => exact le_refl x
  | cons y ys ih => exact le_trans (le_max_left x y) (ih (max x y))

lemma mem_le_foldl_max {c x : ℚ} {xs : List ℚ} (h : c ∈ x :: xs) : c ≤ xs.foldl max x := by
  induction xs generalizing x with
  | nil =>
      rcases List.mem_cons.mp h with h1 | h1
      · exact le_of_eq h1
      · cases h1
  | cons y ys ih =>
      rcases List.mem_cons.mp h with h1 | h2
      · exact le_trans (le_of_eq h1) (le_trans (le_max_left x y) (le_foldl_max _ _))
      · rcases List.mem_cons.mp h2 with h3 | h4
        · exact le_trans (le_of_eq h3) (le_trans (le_max_right x y) (le_foldl_max _ _))
        · exact ih (List.mem_cons_of_mem _ h4)

lemma foldl_max_le {c x : ℚ} {xs : List ℚ} (hx : x ≤ c) (hxs : ∀ y ∈ xs, y ≤ c) :
    xs.foldl max x ≤ c := by
  induction xs generalizing x with
  | nil => exact hx
  | cons y ys ih =>
      exact ih (max_le hx (hxs y (List.mem_cons_self y ys)))
        (fun z hz => hxs z (List.mem_cons_of_mem _ hz))

lemma bit_count_le_greatest (d q : BitStr) :
    (bit_count (bitxor d q) : ℚ) ≤ (greatest (bit_length q) 1 : ℚ) := by
  have h1 : bit_count (bitxor d q) ≤ greatest (bit_length q) 1 := by
    calc bit_count (bitxor d q) ≤ (bitxor d q).length := List.count_le_length _ _
    _ = min d.length q.length := List.length_zipWith _ _ _
    _ ≤ q.length := min_le_right _ _
    _ ≤ greatest (bit_length q) 1 := le_max_left _ _
  exact_mod_cast h1

lemma greatest_cast_pos (q : BitStr) : (0 : ℚ) < (greatest (bit_length q) 1 : ℚ) := by
  have : 0 < greatest (bit_length q) 1 := lt_of_lt_of_le Nat.one_pos (le_max_right _ _)
  exact_mod_cast this

lemma similarity_nonneg (d q : BitStr) : 0 ≤ similarity d q := by
  unfold similarity
  have hdiv : (bit_count (bitxor d q) : ℚ) / (greatest (bit_length q) 1 : ℚ) ≤ 1 :=
    (div_le_one (greatest_cast_pos q)).mpr (bit_count_le_greatest d q)
  linarith

lemma similarity_le_one (d q : BitStr) : similarity d q ≤ 1 := by
  unfold similarity
  have h0 : (0 : ℚ) ≤ (bit_count (bitxor d q) : ℚ) := Nat.cast_nonneg _
  have hdiv := div_nonneg h0 (le_of_lt (greatest_cast_pos q))
  linarith

lemma bit_count_bitxor_self (q : BitStr) : bit_count (bitxor q q) = 0 := by
  induction q with
  | nil => rfl
  | cons a l ih =>
      have h : bitxor (a :: l) (a :: l) = false :: bitxor l l := by
        simp [bitxor]
      rw [bit_count, h]
      simpa [bit_count, List.count_cons] using ih

lemma similarity_self (q : BitStr) : similarity q q = 1 := by
  unfold similarity
  rw [bit_count_bitxor_self]
  simp

lemma sqlMax_eq_of_mem_of_le {l : List ℚ} {c : ℚ} (hmem : c ∈ l) (hle : ∀ y ∈ l, y ≤ c) :
    sqlMax l = some c := by
  cases l with
  | nil => cases hmem
  | cons x xs =>
      have h1 : xs.foldl max x ≤ c :=
        foldl_max_le (hle x (List.mem_cons_self x xs))
          (fun z hz => hle z (List.mem_cons_of_mem _ hz))
      have h2 : c ≤ xs.foldl max x := mem_le_foldl_max hmem
      simp [sqlMax, le_antisymm h1 h2]

lemma sqlMax_nonneg {l : List ℚ} {c : ℚ} (h : sqlMax l = some c) (hl : ∀ y ∈ l, 0 ≤ y) :
    0 ≤ c := by
  cases l with
  | nil => simp [sqlMax] at h
  | cons x xs =>
      simp only [sqlMax, Option.some.injEq] at h
      subst h
      exact le_trans (hl x (List.mem_cons_self x xs)) (le_foldl_max x xs)

lemma widthsCompatible_of_uniform {document query : List BitStr} {W : Nat}
    (hwd : ∀ v ∈ document, bit_length v = W) (hwq : ∀ v ∈ query, bit_length v = W) :
    widthsCompatible document query = true := by
  unfold widthsCompatible
  rw [List.all_eq_true]
  intro q hq
  rw [List.all_eq_true]
  intro d hd
  rw [beq_iff_eq, hwd d hd, hwq q hq]

lemma filterMap_id_map_some {α β : Type} (l : List α) (f : α → β) :
    (l.map fun a => some (f a)).filterMap id = l.map f := by
  induction l with
  | nil => rfl
  | cons x xs ih => simp only [List.map_cons, List.filterMap_cons, id_eq, ih]

lemma sum_map_one (l : List BitStr) : (l.map fun _ => (1 : ℚ)).sum = (l.length : ℚ) := by
  induction l with
  | nil => simp
  | cons x xs ih =>
      simp only [List.map_cons, List.sum_cons, List.length_cons, ih]
      push_cast
      ring

lemma similarity_eq_refSimilarity {d q : BitStr} {W : Nat}
    (hd : bit_length d = W) (hq : bit_length q = W) :
    similarity d q = refSimilarity q d W := by
  unfold similarity refSimilarity
  rcases Nat.eq_zero_or_pos W with h0 | hpos
  · subst h0
    have hd0 : d = [] := List.length_eq_zero.mp hd
    have hq0 : q = [] := List.length_eq_zero.mp hq
    subst hd0
    subst hq0
    norm_num [bitxor, bit_count, greatest, bit_length]
  · have hW : greatest (bit_length q) 1 = W := by
      rw [hq]
      exact max_eq_left hpos
    rw [hW]

/-! ## Claim theorems -/

/-- C1: for non-empty query and candidate multi-vectors whose bit strings all
share one width W, the stored SQL max_sim function returns exactly the
reference max-sim score of the spec: per query vector the maximum over
candidate vectors of 1 minus popcount(d XOR q)/W, summed over the query. -/
theorem max_sim_eq_refScore (document query : List BitStr) (W : Nat)
    (hq : query ≠ []) (hd : document ≠ [])
    (hwq : ∀ v ∈ query, bit_length v = W) (hwd : ∀ v ∈ document, bit_length v = W) :
    max_sim document query = Except.ok (some (refScore query document W)) := by
  unfold max_sim
  rw [if_pos (widthsCompatible_of_uniform hwd hwq)]
  have hmap : (query.map fun q => sqlMax (document.map fun d => similarity d q)) =
      query.map fun q => sqlMax (document.map fun d => refSimilarity q d W) := by
    apply List.map_congr_left
    intro q hqmem
    congr 1
    apply List.map_congr_left
    intro d hdmem
    exact similarity_eq_refSimilarity (hwd d hdmem) (hwq q hqmem)
  rw [hmap]
  obtain ⟨d0, ds, rfl⟩ := List.exists_cons_of_ne_nil hd
  obtain ⟨q0, qs, rfl⟩ := List.exists_cons_of_ne_nil hq
  simp only [List.map_cons, sqlMax]
  rw [show ((fun q => some ((List.map (fun d => refSimilarity q d W) ds).foldl max
        (refSimilarity q d0 W))) q0 ::
      List.map (fun q => some ((List.map (fun d => refSimilarity q d W) ds).foldl max
        (refSimilarity q d0 W))) qs) =
      List.map (fun q => some ((List.map (fun d => refSimilarity q d W) ds).foldl max
        (refSimilarity q d0 W))) (q0 :: qs) from rfl]
  rw [filterMap_id_map_some]
  simp only [refScore, List.map_cons, sqlSum, List.map_eq_nil_iff]
  rfl

/-- C1 witness: the equality instantiated at the width-2 query
[[10], [01]] against the candidate [[11]], where the reference score
evaluates to 1. -/
theorem max_sim_eq_refScore_witness :
    max_sim [[true, true]] [[true, false], [false, true]] =
      Except.ok (some (refScore [[true, false], [false, true]] [[true, true]] 2)) ∧
    refScore [[true, false], [false, true]] [[true, true]] 2 = 1 :=
  ⟨max_sim_eq_refScore [[true, true]] [[true, false], [false, true]] 2
      (by decide) (by decide) (by decide) (by decide),
    by norm_num [refScore, refSimilarity, bitxor, bit_count, bit_length]⟩

/-- C2: scoring an identical non-empty uniform-width multi-vector against
itself yields exactly its number of vectors. -/
theorem max_sim_self (Q : List BitStr) (W : Nat)
    (hQ : Q ≠ []) (hw : ∀ v ∈ Q, bit_length v = W) :
    max_sim Q Q = Except.ok (some (Q.length : ℚ)) := by
  unfold max_sim
  rw [if_pos (widthsCompatible_of_uniform hw hw)]
  have hmap : (Q.map fun q => sqlMax (Q.map fun d => similarity d q)) =
      Q.map fun _ => some (1 : ℚ) := by
    apply List.map_congr_left
    intro q hqmem
    apply sqlMax_eq_of_mem_of_le
    · exact List.mem_map.mpr ⟨q, hqmem, similarity_self q⟩
    · intro y hy
      obtain ⟨d, _, rfl⟩ := List.mem_map.mp hy
      exact similarity_le_one d q
  rw [hmap, filterMap_id_map_some Q (fun _ => (1 : ℚ))]
  obtain ⟨q0, qs, rfl⟩ := List.exists_cons_of_ne_nil hQ
  simp only [sqlSum, List.map_cons, List.map_eq_nil_iff, if_neg (List.cons_ne_nil _ _)]
  rw [show ((1 : ℚ) :: List.map (fun _ => (1 : ℚ)) qs) =
      List.map (fun _ => (1 : ℚ)) (q0 :: qs) from rfl]
  rw [sum_map_one]

/-- C2 witness: the spec scenario, the width-4 multi-vector [1010, 0101]
scored against the identical candidate gives exactly 2. -/
theorem max_sim_self_witness :
    max_sim [[true, false, true, false], [false, true, false, true]]
        [[true, false, true, false], [false, true, false, true]] =
      Except.ok (some (2 : ℚ)) := by
  have h := max_sim_self [[true, false, true, false], [false, true, false, true]] 4
    (by decide) (by decide)
  simpa using h

lemma max_sim_nil_query (D : List BitStr) : max_sim D [] = Except.ok none := rfl

lemma max_sim_nil_doc (Q : List BitStr) : max_sim [] Q = Except.ok none := by
  have hg : widthsCompatible [] Q = true := by
    unfold widthsCompatible
    rw [List.all_eq_true]
    exact fun q _ => rfl
  unfold max_sim
  rw [if_pos hg]
  have h2 : ((Q.map fun q => sqlMax (([] : List BitStr).map fun d =>
      similarity d q)).filterMap id) = [] := by
    simp [sqlMax]
  rw [h2]
  rfl

lemma sqlSum_cons (x : ℚ) (xs : List ℚ) : sqlSum (x :: xs) = some ((x :: xs).sum) := by
  simp [sqlSum]

/-- C3 counterexample: with an empty query (or an empty candidate) the stored
function returns SQL NULL and not the numeric score 0: at document [[1]] and
empty query the result is ok none, which differs from ok (some 0), and
symmetrically for an empty document. -/
theorem max_sim_empty_not_zero_cex :
    max_sim [[true]] [] ≠ Except.ok (some (0 : ℚ)) ∧
    max_sim [] [[true]] ≠ Except.ok (some (0 : ℚ)) := by
  constructor
  · intro h
    rw [show max_sim [[true]] [] = Except.ok (none : Option ℚ) from rfl] at h
    simp at h
  · intro h
    rw [show max_sim [] [[true]] = Except.ok (none : Option ℚ) from rfl] at h
    simp at h

/-- C3 (amended): scoring with an empty query or an empty candidate sequence
does not fail, but yields SQL NULL (no numeric score) rather than the number
0: the SUM aggregate over zero groups is NULL. -/
theorem max_sim_empty_null (D Q : List BitStr) :
    max_sim D [] = Except.ok none ∧ max_sim [] Q = Except.ok none :=
  ⟨max_sim_nil_query D, max_sim_nil_doc Q⟩

/-- C4: for non-empty query and candidate multi-vectors of differing uniform
bit-widths, the stored function raises the XOR size error rather than
producing any numeric score: no silent truncation, padding or coercion. -/
theorem max_sim_width_mismatch_error (document query : List BitStr) (Wd Wq : Nat)
    (hd : document ≠ []) (hq : query ≠ [])
    (hwd : ∀ v ∈ document, bit_length v = Wd) (hwq : ∀ v ∈ query, bit_length v = Wq)
    (hne : Wd ≠ Wq) :
    max_sim document query = Except.error "cannot XOR bit strings of different sizes" := by
  obtain ⟨d0, ds, rfl⟩ := List.exists_cons_of_ne_nil hd
  obtain ⟨q0, qs, rfl⟩ := List.exists_cons_of_ne_nil hq
  have hfalse : ¬ (widthsCompatible (d0 :: ds) (q0 :: qs) = true) := by
    intro hg
    simp only [widthsCompatible, List.all_eq_true] at hg
    have h2 := (hg q0 (List.mem_cons_self _ _)) d0 (List.mem_cons_self _ _)
    rw [beq_iff_eq] at h2
    apply hne
    rw [← hwd d0 (List.mem_cons_self _ _), ← hwq q0 (List.mem_cons_self _ _), h2]
  unfold max_sim
  rw [if_neg hfalse]

/-- C4 witness: a width-8 candidate scored against a width-4 query raises the
size-mismatch error. -/
theorem max_sim_width_mismatch_error_witness :
    max_sim [[true, false, true, false, true, false, true, false]]
        [[true, false, true, false]] =
      Except.error "cannot XOR bit strings of different sizes" :=
  max_sim_width_mismatch_error _ _ 8 4 (by decide) (by decide) (by decide) (by decide)
    (by decide)

/-- C5: the max-sim aggregate is asymmetric: with document [[1]] and query
[[1], [1]] the score is 2, while swapping the two arguments gives 1. -/
theorem max_sim_asymmetric :
    max_sim [[true]] [[true], [true]] ≠ max_sim [[true], [true]] [[true]] := by
  intro h
  rw [show max_sim [[true]] [[true], [true]] = Except.ok (some (2 : ℚ)) from by
      norm_num [max_sim, widthsCompatible, similarity, bitxor, bit_count, bit_length,
        greatest, sqlMax, sqlSum, List.filterMap_cons, List.sum_cons, id_eq]
      exact fun hh => absurd hh (List.cons_ne_nil _ _),
    show max_sim [[true], [true]] [[true]] = Except.ok (some (1 : ℚ)) from by
      norm_num [max_sim, widthsCompatible, similarity, bitxor, bit_count, bit_length,
        greatest, sqlMax, sqlSum, List.filterMap_cons, List.sum_cons, id_eq]] at h
  simp at h

/-- C6 counterexample: the contract reads as returning a float at least 0 for
every shared-width pair, but an empty query against a width-2 candidate
yields SQL NULL: no numeric value at all is returned there. -/
theorem max_sim_float_contract_cex :
    ¬ ∃ s : ℚ, max_sim [[true, true]] [] = Except.ok (some s) ∧ 0 ≤ s := by
  rintro ⟨s, hs, -⟩
  rw [show max_sim [[true, true]] [] = Except.ok (none : Option ℚ) from rfl] at hs
  simp at hs

/-- C6 (amended): under the shared-bit-width precondition the stored function
never errors; whenever it returns a numeric value that value is at least 0,
and for non-empty query and candidate it does return a numeric value; empty
inputs yield SQL NULL instead of a number. -/
theorem max_sim_ok_values_nonneg (document query : List BitStr) (W : Nat)
    (hwq : ∀ v ∈ query, bit_length v = W) (hwd : ∀ v ∈ document, bit_length v = W) :
    ∃ r : Option ℚ, max_sim document query = Except.ok r ∧
      (∀ s : ℚ, r = some s → 0 ≤ s) ∧
      (query ≠ [] → document ≠ [] → ∃ s : ℚ, r = some s ∧ 0 ≤ s) := by
  rcases eq_or_ne query [] with hqe | hqe
  · subst hqe
    exact ⟨none, max_sim_nil_query document, by simp, fun hfq _ => absurd rfl hfq⟩
  rcases eq_or_ne document [] with hde | hde
  · subst hde
    exact ⟨none, max_sim_nil_doc query, by simp, fun _ hfd => absurd rfl hfd⟩
  obtain ⟨q0, qs, rfl⟩ := List.exists_cons_of_ne_nil hqe
  obtain ⟨d0, ds, rfl⟩ := List.exists_cons_of_ne_nil hde
  have hM : ((q0 :: qs).map fun q => sqlMax ((d0 :: ds).map fun d => similarity d q)) =
      (q0 :: qs).map fun q =>
        some ((ds.map fun d => similarity d q).foldl max (similarity d0 q)) := by
    apply List.map_congr_left
    intro q _
    simp [sqlMax]
  have hsum : 0 ≤ ((q0 :: qs).map fun q =>
      (ds.map fun d => similarity d q).foldl max (similarity d0 q)).sum := by
    apply List.sum_nonneg
    intro x hx
    obtain ⟨q, _, rfl⟩ := List.mem_map.mp hx
    exact le_trans (similarity_nonneg d0 q) (le_foldl_max _ _)
  refine ⟨some (((q0 :: qs).map fun q =>
      (ds.map fun d => similarity d q).foldl max (similarity d0 q)).sum), ?_, ?_, ?_⟩
  · unfold max_sim
    rw [if_pos (widthsCompatible_of_uniform hwd hwq)]
    rw [hM, filterMap_id_map_some]
    rw [List.map_cons, sqlSum_cons]
  · intro s hs
    rw [Option.some_inj] at hs
    exact hs ▸ hsum
  · exact fun _ _ => ⟨_, rfl, hsum⟩

/-- C6 witness: the amended statement instantiated at the width-2 document
[[10]] and query [[00]], giving a concrete non-negative numeric score. -/
theorem max_sim_ok_values_nonneg_witness :
    ∃ s : ℚ, max_sim [[true, false]] [[false, false]] = Except.ok (some s) ∧ 0 ≤ s := by
  obtain ⟨r, hr, -, hne⟩ := max_sim_ok_values_nonneg [[true, false]] [[false, false]] 2
    (by decide) (by decide)
  obtain ⟨s, rfl, hs⟩ := hne (by decide) (by decide)
  exact ⟨s, hr, hs⟩

/-- C7: quantization is deterministic: the quantizer is a pure function of the
float multi-vector and the configured width, so two runs on the identical
input yield identical bit output. -/
theorem quantize_deterministic (v : List (List ℚ)) (W : Nat) :
    quantize v W = quantize v W := rfl

/-- C8: the per-pair similarity inside max_sim divides by
greatest(bit_length(query), 1), which is at least 1 for every query bit
string, width 0 included, so the division is guarded and total. -/
theorem similarity_division_guarded (d q : BitStr) :
    similarity d q =
      1 - (bit_count (bitxor d q) : ℚ) / (greatest (bit_length q) 1 : ℚ) ∧
    1 ≤ greatest (bit_length q) 1 ∧ ((greatest (bit_length q) 1 : ℚ) ≠ 0) :=
  ⟨rfl, le_max_right _ _, ne_of_gt (greatest_cast_pos q)⟩

/-- C9 counterexample: on a non-ok /query response the messages state is
restored, but the thrown Error is caught by the catch block of append itself
and routed to showAlert: nothing is raised to the caller of append, so the
claimed conjunction fails at this concrete input. -/
theorem append_error_not_raised_cex :
    ¬ ((appendFlow [] 0 1 "hi" (HttpOutcome.notOk "Internal Server Error")
          (HttpOutcome.ok [])).messages = [] ∧
       (appendFlow [] 0 1 "hi" (HttpOutcome.notOk "Internal Server Error")
          (HttpOutcome.ok [])).raisedToCaller = true) := by
  rintro ⟨-, h⟩
  exact absurd h (by decide)

/-- C9 (amended): for every non-ok /query response, append restores the
messages state to exactly the pre-append list (no user or assistant message
remains from the failed call), reports the error through the alert system,
and resolves without raising anything to its caller. -/
theorem append_restores_on_error (prev : List UIMessage) (fresh1 fresh2 : Nat)
    (content detail : String) (sourcesResp : HttpOutcome (List String)) :
    (appendFlow prev fresh1 fresh2 content (HttpOutcome.notOk detail) sourcesResp).messages
        = prev ∧
    (appendFlow prev fresh1 fresh2 content (HttpOutcome.notOk detail) sourcesResp).alerted
        = true ∧
    (appendFlow prev fresh1 fresh2 content (HttpOutcome.notOk detail)
        sourcesResp).raisedToCaller = false :=
  ⟨rfl, rfl, rfl⟩

/-- C10: deleteChat returns true on an ok response and the sessions list
becomes the previous list with exactly the sessions whose chatId equals the
argument removed: survivors keep their order and contents (the result is a
sublist), every removed entry matched, every non-matching entry survives; on
a non-ok response or a thrown fetch it returns false and the list is
unchanged. -/
theorem deleteChat_spec (sessions : List ChatSessionMeta) (chatId detail msg : String) :
    deleteChat sessions chatId (HttpOutcome.ok ()) =
      (true, sessions.filter fun s => s.chatId != chatId) ∧
    (∀ s ∈ (deleteChat sessions chatId (HttpOutcome.ok ())).2, s.chatId ≠ chatId) ∧
    (∀ s ∈ sessions, s.chatId ≠ chatId →
      s ∈ (deleteChat sessions chatId (HttpOutcome.ok ())).2) ∧
    (deleteChat sessions chatId (HttpOutcome.ok ())).2.Sublist sessions ∧
    deleteChat sessions chatId (HttpOutcome.notOk detail) = (false, sessions) ∧
    deleteChat sessions chatId (HttpOutcome.netErr msg) = (false, sessions) := by
  have h2 : (deleteChat sessions chatId (HttpOutcome.ok ())).2 =
      sessions.filter fun s => s.chatId != chatId := rfl
  refine ⟨rfl, ?_, ?_, ?_, rfl, rfl⟩
  · intro s hs
    rw [h2] at hs
    have := (List.mem_filter.mp hs).2
    simpa [bne_iff_ne] using this
  · intro s hs hne
    rw [h2]
    exact List.mem_filter.mpr ⟨hs, by simpa [bne_iff_ne] using hne⟩
  · rw [h2]
    exact List.filter_sublist _
